import Mathlib

/-!
Verification development for `tadn/scripts/precompute_appearance_vectors.py`.

The script is an extract-transform-load loop: it iterates over dataset
samples, crops a patch per detection box, runs a CNN feature extractor on
the batch of patches of one frame, and accumulates the resulting feature
tensors into shard files plus one vocabulary index file.

Modelling conventions:
* Detection box coordinates are modelled as integers (`Int`); the Python
  code converts them with `int(...)` before use.
* Pixel values are modelled as rationals (the frame array is
  `frame_data.astype(np.float32) / 255`; the concrete numeric values are
  irrelevant to the claims, only which pixels are selected).
* Feature tensors flowing through the driver loop are modelled as
  `List (List ℚ)` (a batch of feature vectors); their content is opaque
  to the shard writer.
* File paths are represented by their basename (the output directory
  `base_folder` is a fixed prefix shared by every file of one run).
* Python `dict`s are modelled as insertion-ordered association lists with
  overwrite-on-update semantics, matching `dict.update`.
-/

namespace TADN

/-! ### Pixels, frames and patches (`main`, lines 148 and 154-167) -/

/-- One RGB pixel (three channels). -/
abbrev Pixel : Type := ℚ × ℚ × ℚ

/-- A frame: an `H × W × 3` pixel array, already normalised to `[0,1]`
(the script computes `frame = sample["frame_data"].astype(np.float32) / 255`
before any cropping). `px y x` is the pixel at row `y`, column `x`;
indices outside `H × W` are never selected by the definitions below. -/
structure Frame where
  H : Nat
  W : Nat
  px : Nat → Nat → Pixel

/-- The dtype of a numpy array in the parts of the script we model:
the zero placeholder patch is `np.uint8`, frame slices are `np.float32`. -/
inductive DType where
  | uint8
  | float32
  deriving DecidableEq, Repr

/-- An image patch: a dtype tag plus a row-major pixel grid. -/
structure Patch where
  dtype : DType
  data : List (List Pixel)
  deriving DecidableEq

/-- One detection box `[x, y, w, h, ...]` (`d[0] .. d[3]` in the script). -/
structure Detection where
  x : Int
  y : Int
  w : Int
  h : Int
  deriving DecidableEq, Repr

/-- `real_w: int = int(d[2]) if d[0] > 0 else int(d[0] + d[2])` (line 155). -/
def real_w (d : Detection) : Int := if d.x > 0 then d.w else d.x + d.w

/-- `real_h: int = int(d[3]) if d[1] > 0 else int(d[1] + d[3])` (line 156). -/
def real_h (d : Detection) : Int := if d.y > 0 then d.h else d.y + d.h

/-- `real_xmin: int = max(0, int(d[0]))` (line 157). -/
def real_xmin (d : Detection) : Int := max 0 d.x

/-- `real_ymin: int = max(0, int(d[1]))` (line 158). -/
def real_ymin (d : Detection) : Int := max 0 d.y

/-- `np.zeros((256, 128, 3), dtype=np.uint8)` (line 160). -/
def zeroPatch : Patch :=
  ⟨DType.uint8, List.replicate 256 (List.replicate 128 ((0 : ℚ), (0 : ℚ), (0 : ℚ)))⟩

/-- `frame[y : y + h, x : x + w]` with numpy slicing semantics: a slice
never reads out of bounds, it is silently truncated at the array edge, so
the result has `min h (H - y)` rows and `min w (W - x)` columns. -/
def slicePatch (fr : Frame) (y x h w : Nat) : Patch :=
  ⟨DType.float32,
    (List.range (min h (fr.H - y))).map fun i =>
      (List.range (min w (fr.W - x))).map fun j => fr.px (y + i) (x + j)⟩

/-- The per-detection patch crop of the driver loop (lines 154-167):
degenerate boxes (`real_h <= 1 or real_w <= 1`) yield the zero
placeholder, every other box yields the frame slice
`frame[real_ymin : real_ymin + real_h, real_xmin : real_xmin + real_w]`. -/
def crop (fr : Frame) (d : Detection) : Patch :=
  if real_h d ≤ 1 ∨ real_w d ≤ 1 then zeroPatch
  else slicePatch fr (real_ymin d).toNat (real_xmin d).toNat
    (real_h d).toNat (real_w d).toNat

/-- The mathematical (untruncated) sub-array
`[[fr.px (y+i) (x+j) | j < w] | i < h]`, for comparison with `crop`. -/
def subArray (fr : Frame) (y x h w : Nat) : List (List Pixel) :=
  (List.range h).map fun i => (List.range w).map fun j => fr.px (y + i) (x + j)

/-! ### Feature extractors (`Resnet18Features.__call__`, lines 37-46, and
`ReidFeatures.__call__`, lines 73-82) -/

/-- One feature vector (a row of the `BS x 512` output tensor). -/
abbrev FVec : Type := List ℚ

/-- Result value of a feature-extractor call: `torch.empty(0)` for the
empty-input short circuit, otherwise the stacked model output. -/
inductive FeatResult where
  | emptyTensor
  | batchOut (vecs : List FVec)
  deriving DecidableEq

/-- Observable trace of one feature-extractor call: the returned value,
how many times the underlying CNN ran, and — when it ran — whether
gradient tracking was enabled at that point (`some false` means the
inference happened inside `with torch.no_grad():`). -/
structure CallTrace where
  result : FeatResult
  modelCalls : Nat
  gradAtModel : Option Bool
  deriving DecidableEq

/-- `Resnet18Features.__call__` (lines 37-46): on an empty list return
`torch.empty(0)` without touching the model; otherwise map the transform
`self.T` over the patches, stack them into one batch, and run the model
once under `torch.no_grad()`. `T` abstracts the torchvision `Compose`
(out-of-scope third-party code), `model` the ResNet-18 backbone. -/
def resnet18Call {α : Type} (T : Patch → α) (model : List α → List FVec)
    (x : List Patch) : CallTrace :=
  if x.length = 0 then ⟨FeatResult.emptyTensor, 0, none⟩
  else ⟨FeatResult.batchOut (model (x.map T)), 1, some false⟩

/-- `ReidFeatures.__call__` (lines 73-82): identical control flow to
`resnet18Call`; `preprocess` abstracts `self.preprocess`, `model` the
torchreid ResNet-50 extractor. -/
def reidCall {α : Type} (preprocess : Patch → α) (model : List α → List FVec)
    (x : List Patch) : CallTrace :=
  if x.length = 0 then ⟨FeatResult.emptyTensor, 0, none⟩
  else ⟨FeatResult.batchOut (model (x.map preprocess)), 1, some false⟩

/-! ### The shard writer and driver loop (`main`, lines 85-199) -/

/-- A feature tensor as stored by the shard writer (`feats_tensor`,
`num_dets x 512`); its content is opaque to the storage logic. -/
abbrev FeatsT : Type := List FVec

/-- Insertion-ordered association-list update with Python `dict.update`
semantics: overwrite in place when the key exists, append otherwise. -/
def dictUpdate {β : Type} (d : List (String × β)) (k : String) (v : β) :
    List (String × β) :=
  match d with
  | [] => [(k, v)]
  | (k', v') :: rest =>
    if k' = k then (k, v) :: rest else (k', v') :: dictUpdate rest k v

/-- `lookup` on the association lists modelling Python dicts. -/
def dictLookup {β : Type} (d : List (String × β)) (k : String) : Option β :=
  match d with
  | [] => none
  | (k', v') :: rest => if k' = k then some v' else dictLookup rest k

/-- Content of one file written by the script: either a shard
(`torch.save(feats_dict, ...)`) or the vocabulary
(`pickle.dumps(feats_vocabulary)`). -/
inductive FSValue where
  | shard (d : List (String × FeatsT))
  | voc (v : List (String × String))
  deriving DecidableEq

/-- The output directory's contents, as an association list from basename
to content; a write to an existing name overwrites it. -/
abbrev FS : Type := List (String × FSValue)

/-- Write (create or overwrite) one file. -/
def fsWrite (fs : FS) (name : String) (v : FSValue) : FS :=
  match fs with
  | [] => [(name, v)]
  | (n', v') :: rest =>
    if n' = name then (name, v) :: rest else (n', v') :: fsWrite rest name v

/-- Read one file, `none` when absent. -/
def fsLookup (fs : FS) (name : String) : Option FSValue :=
  match fs with
  | [] => none
  | (n', v') :: rest => if n' = name then some v' else fsLookup rest name

/-- Basename of shard `i`: `f"ap_vec_{current_file_idx}.apv"`
(lines 132-135 and 182-185). -/
def fileName (i : Nat) : String := "ap_vec_" ++ toString i ++ ".apv"

/-- Basename of the vocabulary index file (lines 194-197). -/
def vocName : String := "ap_vectors.voc"

/-- `key = f"{seq}_{frame_id}"` (line 150). -/
def mkKey (seq : String) (frameId : Nat) : String :=
  seq ++ "_" ++ toString frameId

/-- The mutable state of `main`'s driver loop: `current_file_idx`,
`feats_dict`, `feats_vocabulary`, the files written so far, and the `key`
variable (initialised to `""` before the `try`, line 140). -/
structure LoopState where
  idx : Nat
  dict : List (String × FeatsT)
  voc : List (String × String)
  fs : FS
  key : String
  deriving DecidableEq

/-- State at the top of the `try` block (lines 131-140). -/
def initState : LoopState := ⟨0, [], [], [], ""⟩

/-- Outcome of processing one dataset sample, classified by where (if
anywhere) inside the loop body (lines 142-186) an exception is raised:

* `ok seq frameId feats` — the whole body runs: the key is built, patches
  are cropped, the extractor returns `feats`, both dict updates happen,
  and the rotation check (with its `torch.save`) succeeds.
* `failEarly` — an exception is raised before `key = f"{seq}_{frame_id}"`
  executes (sample iteration itself, field access, or the frame
  conversion, lines 142-148); the `key` variable keeps its previous value.
* `failAfterKey seq frameId` — the key is assigned, then an exception is
  raised before the dict updates complete (patch cropping or the feature
  extractor, lines 151-171).
* `failAfterRecord seq frameId feats` — both dict updates complete, then
  the rotation `torch.save` (line 180) raises before writing anything;
  the shard index is not incremented and the buffer is not reset. -/
inductive SampleOutcome where
  | ok (seq : String) (frameId : Nat) (feats : FeatsT)
  | failEarly
  | failAfterKey (seq : String) (frameId : Nat)
  | failAfterRecord (seq : String) (frameId : Nat) (feats : FeatsT)

/-- One iteration of the loop body (lines 142-186) on one sample, given
the configured `samples_per_file`; returns the new state and whether an
exception was raised (which transfers control to the `except` handler). -/
def procSample (spf : Nat) (st : LoopState) (s : SampleOutcome) :
    LoopState × Bool :=
  match s with
  | SampleOutcome.failEarly => (st, true)
  | SampleOutcome.failAfterKey seq frameId =>
    ({ st with key := mkKey seq frameId }, true)
  | SampleOutcome.failAfterRecord seq frameId feats =>
    let k := mkKey seq frameId
    ({ st with
        key := k
        dict := dictUpdate st.dict k feats
        voc := dictUpdate st.voc k (fileName st.idx) }, true)
  | SampleOutcome.ok seq frameId feats =>
    let k := mkKey seq frameId
    let dict' := dictUpdate st.dict k feats
    let voc' := dictUpdate st.voc k (fileName st.idx)
    if dict'.length = spf then
      -- rotation (lines 178-186): save the buffer, bump the index, reset
      ({ idx := st.idx + 1
         dict := []
         voc := voc'
         fs := fsWrite st.fs (fileName st.idx) (FSValue.shard dict')
         key := k }, false)
    else
      ({ st with key := k, dict := dict', voc := voc' }, false)

/-- The `for sample in tqdm(dset_wrapper)` loop inside `try` (lines
141-186): process samples in order; the first raised exception stops the
loop (it is caught by the `except` clause at line 187). The returned
`Bool` records whether an exception was caught. -/
def runLoop (spf : Nat) (st : LoopState) : List SampleOutcome → LoopState × Bool
  | [] => (st, false)
  | s :: rest =>
    if (procSample spf st s).2 then ((procSample spf st s).1, true)
    else runLoop spf (procSample spf st s).1 rest

/-- The `finally` block (lines 191-199): persist the remaining buffer to
the current shard file, then serialize the vocabulary to
`ap_vectors.voc`. -/
def finalize (st : LoopState) : LoopState :=
  { st with
      fs := fsWrite (fsWrite st.fs (fileName st.idx) (FSValue.shard st.dict))
        vocName (FSValue.voc st.voc) }

/-- Observable result of a completed `main` call: the files written and
the key named by the `print(f"Current key: {key}")` diagnostic when an
exception was caught (`none` when the loop finished normally). -/
structure MainResult where
  fs : FS
  printedKey : Option String
  deriving DecidableEq

/-- The files on disk after a valid-configuration run of `main` on a
sample trace: the loop runs from the initial state, then the `finally`
block persists the buffer and the vocabulary. -/
def mainFS (spf : Nat) (steps : List SampleOutcome) : FS :=
  (finalize (runLoop spf initState steps).1).fs

/-- The key named by `print(f"Current key: {key}")` on a
valid-configuration run (`none` when no exception was caught). -/
def mainPrinted (spf : Nat) (steps : List SampleOutcome) : Option String :=
  if (runLoop spf initState steps).2
  then some (runLoop spf initState steps).1.key else none

/-- `main` (lines 85-199) over a trace of sample outcomes: an invalid
`--dset_type` raises `Exception("Invalid dataset type")` (line 109)
before the output directory, the loop or any file write is reached;
otherwise the driver loop runs inside `try/except/finally` and `main`
returns normally even when a per-sample exception was caught. -/
def mainRun (dset_type : String) (spf : Nat) (steps : List SampleOutcome) :
    Except String MainResult :=
  if dset_type = "mot-challenge" ∨ dset_type = "detrac" then
    Except.ok ⟨mainFS spf steps, mainPrinted spf steps⟩
  else
    Except.error "Invalid dataset type"

/-! ### Auxiliary definitions for the proofs -/

/-- Decimal digit string of `n`, most significant digit first. -/
def digString (n : Nat) : List Char :=
  if h : n < 10 then [Nat.digitChar n]
  else digString (n / 10) ++ [Nat.digitChar (n % 10)]
  decreasing_by exact Nat.div_lt_self (by omega) (by omega)

/-- Inverse of `Nat.digitChar` on decimal digits. -/
def digVal (c : Char) : Nat :=
  if c = '0' then 0 else if c = '1' then 1 else if c = '2' then 2 else
  if c = '3' then 3 else if c = '4' then 4 else if c = '5' then 5 else
  if c = '6' then 6 else if c = '7' then 7 else if c = '8' then 8 else 9

/-- A detection box lies fully inside the frame with width and height
strictly greater than one. -/
def InBounds (fr : Frame) (d : Detection) : Prop :=
  0 ≤ d.x ∧ 0 ≤ d.y ∧ 1 < d.w ∧ 1 < d.h ∧
    d.x + d.w ≤ (fr.W : Int) ∧ d.y + d.h ≤ (fr.H : Int)

instance (fr : Frame) (d : Detection) : Decidable (InBounds fr d) := by
  unfold InBounds
  infer_instance

/-- A concrete 4 x 5 frame used to instantiate theorems on concrete inputs. -/
def fr0 : Frame :=
  ⟨4, 5, fun y x => ((y : ℚ), (x : ℚ), (y : ℚ) + (x : ℚ))⟩

/-- A concrete in-bounds detection box for `fr0`. -/
def d0 : Detection := ⟨1, 1, 3, 2⟩

/-- A concrete degenerate detection box (`real_w d1 = -2`). -/
def d1 : Detection := ⟨-5, 2, 3, 4⟩

/-- A concrete box whose extent reaches beyond the right edge of `fr0`. -/
def d2 : Detection := ⟨3, 1, 4, 2⟩

/-- `(seq, frame_id, feats)` of a sample whose whole loop body succeeds. -/
abbrev OkStep : Type := String × Nat × FeatsT

/-- A concrete successful sample (sequence `"a"`, frame 1). -/
def okA : OkStep := ("a", 1, [[1]])

/-- A concrete successful sample (sequence `"b"`, frame 2). -/
def okB : OkStep := ("b", 2, [[2]])

/-- The key `f"{seq}_{frame_id}"` of a successful sample. -/
def okKey (s : OkStep) : String := mkKey s.1 s.2.1

/-- The `SampleOutcome` of a successful sample. -/
def okOutcome (s : OkStep) : SampleOutcome := SampleOutcome.ok s.1 s.2.1 s.2.2

/-- The key/feature pair a successful sample adds to `feats_dict`. -/
def okPair (s : OkStep) : String × FeatsT := (okKey s, s.2.2)

/-- The key the loop body assigns to the `key` variable while processing
this sample (`none` when the exception fires before line 150 runs). -/
def outKey : SampleOutcome → Option String
  | SampleOutcome.ok seq frameId _ => some (mkKey seq frameId)
  | SampleOutcome.failEarly => none
  | SampleOutcome.failAfterKey seq frameId => some (mkKey seq frameId)
  | SampleOutcome.failAfterRecord seq frameId _ => some (mkKey seq frameId)

/-- Whether processing this sample raises an exception. -/
def isFailure : SampleOutcome → Bool
  | SampleOutcome.ok _ _ _ => false
  | _ => true

/-- Whether the record step (both dict updates, lines 175-176) completed
for this sample. -/
def recordDone : SampleOutcome → Bool
  | SampleOutcome.ok _ _ _ => true
  | SampleOutcome.failAfterRecord _ _ _ => true
  | _ => false

/-- Key of the last successfully processed sample of a run prefix
(`""`, the initial value of the `key` variable, when there is none). -/
def lastOkKey (pre : List OkStep) : String := (pre.map okKey).getLastD ""

/-- State after processing a list of successful samples. -/
def stAfter (spf : Nat) (pre : List OkStep) (st : LoopState) : LoopState :=
  pre.foldl (fun st s => (procSample spf st (okOutcome s)).1) st

/-- `k` is durably persisted with value `v` in the file system `fs`: the
vocabulary file maps `k` to a shard file whose stored dict maps `k` to
`v`. -/
def PersistedVoc (fs : FS) (k : String) (v : FeatsT) : Prop :=
  ∃ V f sd, fsLookup fs vocName = some (FSValue.voc V)
    ∧ dictLookup V k = some f
    ∧ fsLookup fs f = some (FSValue.shard sd)
    ∧ dictLookup sd k = some v

/-- Loop invariant: the vocabulary maps `k` either to the current shard
name with `k` still in the in-memory buffer, or to an already-written
shard whose stored dict holds `k ↦ v`. -/
def Stored (st : LoopState) (k : String) (v : FeatsT) : Prop :=
  (dictLookup st.voc k = some (fileName st.idx)
    ∧ dictLookup st.dict k = some v)
  ∨ (∃ j < st.idx, dictLookup st.voc k = some (fileName j)
      ∧ ∃ sd, fsLookup st.fs (fileName j) = some (FSValue.shard sd)
        ∧ dictLookup sd k = some v)

/-- Every key recorded anywhere in the state (buffer, vocabulary, or an
already-written shard) belongs to `S`. -/
def KeysBound (st : LoopState) (S : List String) : Prop :=
  (∀ k v, dictLookup st.dict k = some v → k ∈ S)
  ∧ (∀ k f, dictLookup st.voc k = some f → k ∈ S)
  ∧ (∀ f sd, fsLookup st.fs f = some (FSValue.shard sd) →
      ∀ k v, dictLookup sd k = some v → k ∈ S)

/-- `k` appears neither in the persisted vocabulary nor in any persisted
shard of `fs`. -/
def Absent (fs : FS) (k : String) : Prop :=
  (∀ V, fsLookup fs vocName = some (FSValue.voc V) → dictLookup V k = none)
  ∧ (∀ f sd, fsLookup fs f = some (FSValue.shard sd) → dictLookup sd k = none)

/-! ### Decimal representation: `Nat.repr` is injective

The script distinguishes shard files purely by the decimal index embedded
in the filename, so the development needs that `toString (i : Nat)` is
injective and that no `ap_vec_{i}.apv` coincides with `ap_vectors.voc`. -/

theorem toDigitsCore_eq_digString (fuel : Nat) :
    ∀ (n : Nat) (ds : List Char), n < 10 ^ (fuel + 1) →
      Nat.toDigitsCore 10 (fuel + 1) n ds = digString n ++ ds := by
  induction fuel with
  | zero =>
    intro n ds h
    have hn : n < 10 := by simpa using h
    have h0 : n / 10 = 0 := Nat.div_eq_of_lt hn
    simp [Nat.toDigitsCore, h0, digString, hn, Nat.mod_eq_of_lt hn]
  | succ fuel ih =>
    intro n ds h
    by_cases h0 : n / 10 = 0
    · have hn : n < 10 := by
        rcases Nat.lt_or_ge n 10 with h' | h'
        · exact h'
        · exact absurd h0 (by
            have : 1 ≤ n / 10 := Nat.le_div_iff_mul_le (by omega) |>.mpr (by omega)
            omega)
      simp [Nat.toDigitsCore, h0, digString, hn, Nat.mod_eq_of_lt hn]
    · have hn : ¬ n < 10 := by
        intro h'
        exact h0 (Nat.div_eq_of_lt h')
      have hdiv : n / 10 < 10 ^ (fuel + 1) := by
        rw [Nat.div_lt_iff_lt_mul (by omega)]
        calc n < 10 ^ (fuel + 1 + 1) := h
          _ = 10 ^ (fuel + 1) * 10 := by ring
      have : Nat.toDigitsCore 10 (fuel + 1 + 1) n ds
          = Nat.toDigitsCore 10 (fuel + 1) (n / 10)
            (Nat.digitChar (n % 10) :: ds) := by
        simp [Nat.toDigitsCore, h0]
      rw [this, ih (n / 10) _ hdiv]
      have hds : digString n = digString (n / 10) ++ [Nat.digitChar (n % 10)] := by
        rw [digString]
        simp [hn]
      rw [hds, List.append_assoc]
      rfl

theorem toDigits_eq_digString (n : Nat) :
    Nat.toDigits 10 n = digString n := by
  have h : n < 10 ^ (n + 1) := by
    calc n < 10 ^ n := Nat.lt_pow_self (by omega) n
      _ ≤ 10 ^ (n + 1) := Nat.pow_le_pow_right (by omega) (Nat.le_succ n)
  simpa using toDigitsCore_eq_digString n n [] h

theorem digVal_digitChar (n : Nat) (h : n < 10) :
    digVal (Nat.digitChar n) = n := by
  interval_cases n <;> rfl

theorem foldl_digString (n : Nat) :
    ∀ acc : Nat,
      (digString n).foldl (fun acc c => 10 * acc + digVal c) acc
        = acc * 10 ^ (digString n).length + n := by
  induction n using Nat.strong_induction_on with
  | _ n ih =>
    intro acc
    by_cases h : n < 10
    · rw [digString]
      simp [h, digVal_digitChar n h]
      ring
    · have hpos : 0 < n := by omega
      have hlt : n / 10 < n := Nat.div_lt_self hpos (by omega)
      rw [digString]
      simp only [h, dite_false, List.foldl_append, List.length_append,
        List.length_singleton, List.foldl_cons, List.foldl_nil]
      rw [ih (n / 10) hlt acc]
      rw [digVal_digitChar (n % 10) (Nat.mod_lt n (by omega))]
      have hdm : 10 * (n / 10) + n % 10 = n := Nat.div_add_mod n 10
      calc 10 * (acc * 10 ^ (digString (n / 10)).length + n / 10)
            + n % 10
          = acc * (10 ^ (digString (n / 10)).length * 10)
            + (10 * (n / 10) + n % 10) := by ring
        _ = acc * 10 ^ ((digString (n / 10)).length + 1) + n := by
            rw [hdm, pow_succ]

theorem repr_data_eq (n : Nat) : (Nat.repr n).data = digString n := by
  rw [Nat.repr, toDigits_eq_digString]
  rfl

theorem repr_injective {a b : Nat} (h : Nat.repr a = Nat.repr b) : a = b := by
  have hd : digString a = digString b := by
    rw [← repr_data_eq, ← repr_data_eq, h]
  have ha := foldl_digString a 0
  have hb := foldl_digString b 0
  rw [hd] at ha
  simp only [Nat.zero_mul, Nat.zero_add] at ha hb
  omega

theorem fileName_injective {i j : Nat} (h : fileName i = fileName j) :
    i = j := by
  apply repr_injective (a := i) (b := j)
  have hd := congrArg String.data h
  simp only [fileName, String.data_append] at hd
  rw [List.append_assoc, List.append_assoc] at hd
  have h2 := List.append_cancel_left hd
  have h1 : (toString i).data = (toString j).data := List.append_cancel_right h2
  exact String.ext h1

theorem fileName_ne_vocName (i : Nat) : fileName i ≠ vocName := by
  intro h
  have hd := congrArg String.data h
  simp only [fileName, vocName, String.data_append] at hd
  rw [List.append_assoc] at hd
  have hpre : ['a', 'p', '_', 'v', 'e', 'c', '_'] <+:
      ['a', 'p', '_', 'v', 'e', 'c', 't', 'o', 'r', 's', '.', 'v', 'o', 'c'] :=
    ⟨(toString i).data ++ ['.', 'a', 'p', 'v'], hd⟩
  exact absurd hpre (by decide)

/-! ### Association-list and filesystem lemmas -/

theorem dictLookup_update_self {β : Type} (d : List (String × β)) (k : String)
    (v : β) : dictLookup (dictUpdate d k v) k = some v := by
  induction d with
  | nil => simp [dictUpdate, dictLookup]
  | cons p rest ih =>
    by_cases h : p.1 = k
    · simp [dictUpdate, dictLookup, h]
    · simp [dictUpdate, dictLookup, h, ih]

theorem dictLookup_update_ne {β : Type} (d : List (String × β)) (k k' : String)
    (v : β) (h : k' ≠ k) :
    dictLookup (dictUpdate d k v) k' = dictLookup d k' := by
  induction d with
  | nil => simp [dictUpdate, dictLookup, Ne.symm h]
  | cons p rest ih =>
    by_cases hp : p.1 = k
    · subst hp
      simp [dictUpdate, dictLookup, Ne.symm h]
    · simp only [dictUpdate, hp, if_false]
      by_cases hp' : p.1 = k'
      · simp [dictLookup, hp']
      · simp [dictLookup, hp', ih]

theorem dictUpdate_not_mem {β : Type} (d : List (String × β)) (k : String)
    (v : β) (h : dictLookup d k = none) : dictUpdate d k v = d ++ [(k, v)] := by
  induction d with
  | nil => simp [dictUpdate]
  | cons p rest ih =>
    by_cases hp : p.1 = k
    · simp [dictLookup, hp] at h
    · simp only [dictLookup, hp, if_false] at h
      simp [dictUpdate, hp, ih h]

theorem length_dictUpdate_not_mem {β : Type} (d : List (String × β))
    (k : String) (v : β) (h : dictLookup d k = none) :
    (dictUpdate d k v).length = d.length + 1 := by
  rw [dictUpdate_not_mem d k v h]
  simp

theorem dictLookup_append_right {β : Type} (d e : List (String × β))
    (k : String) (h : dictLookup d k = none) :
    dictLookup (d ++ e) k = dictLookup e k := by
  induction d with
  | nil => simp
  | cons p rest ih =>
    by_cases hp : p.1 = k
    · simp [dictLookup, hp] at h
    · simp only [dictLookup, hp, if_false] at h
      simp [dictLookup, hp, ih h]

theorem dictLookup_append_left {β : Type} (d e : List (String × β))
    (k : String) (v : β) (h : dictLookup d k = some v) :
    dictLookup (d ++ e) k = some v := by
  induction d with
  | nil => simp [dictLookup] at h
  | cons p rest ih =>
    by_cases hp : p.1 = k
    · simp [dictLookup, hp] at h ⊢
      exact h
    · simp only [dictLookup, hp, if_false] at h ⊢
      exact ih h

theorem fsLookup_write_self (fs : FS) (name : String) (v : FSValue) :
    fsLookup (fsWrite fs name v) name = some v := by
  induction fs with
  | nil => simp [fsWrite, fsLookup]
  | cons p rest ih =>
    by_cases h : p.1 = name
    · simp [fsWrite, fsLookup, h]
    · simp [fsWrite, fsLookup, h, ih]

theorem fsLookup_write_ne (fs : FS) (name name' : String) (v : FSValue)
    (h : name' ≠ name) :
    fsLookup (fsWrite fs name v) name' = fsLookup fs name' := by
  induction fs with
  | nil => simp [fsWrite, fsLookup, Ne.symm h]
  | cons p rest ih =>
    by_cases hp : p.1 = name
    · subst hp
      simp [fsWrite, fsLookup, Ne.symm h]
    · simp only [fsWrite, hp, if_false]
      by_cases hp' : p.1 = name'
      · simp [fsLookup, hp']
      · simp [fsLookup, hp', ih]

/-! ### Driver-loop lemmas -/

theorem procSample_failEarly (spf : Nat) (st : LoopState) :
    procSample spf st SampleOutcome.failEarly = (st, true) := rfl

theorem procSample_failAfterKey (spf : Nat) (st : LoopState) (seq : String)
    (fid : Nat) :
    procSample spf st (SampleOutcome.failAfterKey seq fid)
      = ({ st with key := mkKey seq fid }, true) := rfl

theorem procSample_failAfterRecord (spf : Nat) (st : LoopState) (seq : String)
    (fid : Nat) (feats : FeatsT) :
    procSample spf st (SampleOutcome.failAfterRecord seq fid feats)
      = ({ st with
            key := mkKey seq fid
            dict := dictUpdate st.dict (mkKey seq fid) feats
            voc := dictUpdate st.voc (mkKey seq fid) (fileName st.idx) },
          true) := rfl

theorem procSample_ok_rotate (spf : Nat) (st : LoopState) (seq : String)
    (fid : Nat) (feats : FeatsT)
    (h : (dictUpdate st.dict (mkKey seq fid) feats).length = spf) :
    procSample spf st (SampleOutcome.ok seq fid feats)
      = ({ idx := st.idx + 1
           dict := []
           voc := dictUpdate st.voc (mkKey seq fid) (fileName st.idx)
           fs := fsWrite st.fs (fileName st.idx)
             (FSValue.shard (dictUpdate st.dict (mkKey seq fid) feats))
           key := mkKey seq fid }, false) := by
  simp [procSample, h]

theorem procSample_ok_no_rotate (spf : Nat) (st : LoopState) (seq : String)
    (fid : Nat) (feats : FeatsT)
    (h : ¬ (dictUpdate st.dict (mkKey seq fid) feats).length = spf) :
    procSample spf st (SampleOutcome.ok seq fid feats)
      = ({ st with
            key := mkKey seq fid
            dict := dictUpdate st.dict (mkKey seq fid) feats
            voc := dictUpdate st.voc (mkKey seq fid) (fileName st.idx) },
          false) := by
  simp [procSample, h]

theorem procSample_ok_snd (spf : Nat) (st : LoopState) (s : OkStep) :
    (procSample spf st (okOutcome s)).2 = false := by
  by_cases h : (dictUpdate st.dict (mkKey s.1 s.2.1) s.2.2).length = spf
  · rw [okOutcome, procSample_ok_rotate spf st s.1 s.2.1 s.2.2 h]
  · rw [okOutcome, procSample_ok_no_rotate spf st s.1 s.2.1 s.2.2 h]

theorem procSample_fail_snd (spf : Nat) (st : LoopState) (s : SampleOutcome)
    (h : isFailure s = true) :
    (procSample spf st s).2 = true := by
  cases s with
  | ok seq fid feats => simp [isFailure] at h
  | failEarly => rfl
  | failAfterKey seq fid => rfl
  | failAfterRecord seq fid feats => rfl

theorem runLoop_cons_ok (spf : Nat) (st : LoopState) (s : OkStep)
    (rest : List SampleOutcome) :
    runLoop spf st (okOutcome s :: rest)
      = runLoop spf (procSample spf st (okOutcome s)).1 rest := by
  simp [runLoop, procSample_ok_snd]

theorem runLoop_cons_fail (spf : Nat) (st : LoopState) (s : SampleOutcome)
    (h : isFailure s = true) (rest : List SampleOutcome) :
    runLoop spf st (s :: rest) = ((procSample spf st s).1, true) := by
  simp [runLoop, procSample_fail_snd spf st s h]

theorem stAfter_cons (spf : Nat) (p : OkStep) (pre : List OkStep)
    (st : LoopState) :
    stAfter spf (p :: pre) st
      = stAfter spf pre (procSample spf st (okOutcome p)).1 := rfl

theorem runLoop_ok_segment (spf : Nat) (pre : List OkStep) :
    ∀ (st : LoopState) (rest : List SampleOutcome),
      runLoop spf st (pre.map okOutcome ++ rest)
        = runLoop spf (stAfter spf pre st) rest := by
  induction pre with
  | nil =>
    intro st rest
    simp [stAfter]
  | cons p pre ih =>
    intro st rest
    rw [List.map_cons, List.cons_append, runLoop_cons_ok, ih, stAfter_cons]

theorem runLoop_stops (spf : Nat) (pre : List OkStep) (fl : SampleOutcome)
    (hfl : isFailure fl = true) (rest : List SampleOutcome) (st : LoopState) :
    runLoop spf st (pre.map okOutcome ++ fl :: rest)
      = runLoop spf st (pre.map okOutcome ++ [fl]) := by
  rw [runLoop_ok_segment, runLoop_ok_segment, runLoop_cons_fail _ _ _ hfl,
    runLoop_cons_fail _ _ _ hfl]

theorem runLoop_fail_end (spf : Nat) (pre : List OkStep) (fl : SampleOutcome)
    (hfl : isFailure fl = true) (rest : List SampleOutcome) (st : LoopState) :
    runLoop spf st (pre.map okOutcome ++ fl :: rest)
      = ((procSample spf (stAfter spf pre st) fl).1, true) := by
  rw [runLoop_ok_segment, runLoop_cons_fail _ _ _ hfl]

theorem procSample_ok_key (spf : Nat) (st : LoopState) (s : OkStep) :
    ((procSample spf st (okOutcome s)).1).key = okKey s := by
  by_cases h : (dictUpdate st.dict (mkKey s.1 s.2.1) s.2.2).length = spf
  · rw [okOutcome, procSample_ok_rotate spf st s.1 s.2.1 s.2.2 h]
    rfl
  · rw [okOutcome, procSample_ok_no_rotate spf st s.1 s.2.1 s.2.2 h]
    rfl

theorem stAfter_key (spf : Nat) (pre : List OkStep) :
    ∀ st : LoopState,
      (stAfter spf pre st).key = (pre.map okKey).getLastD st.key := by
  induction pre with
  | nil => intro st; rfl
  | cons p pre ih =>
    intro st
    rw [stAfter_cons, ih, List.map_cons, List.getLastD_cons,
      procSample_ok_key]

theorem procSample_fail_key (spf : Nat) (st : LoopState) (fl : SampleOutcome)
    (h : isFailure fl = true) :
    ((procSample spf st fl).1).key
      = (match outKey fl with
          | some k => k
          | none => st.key) := by
  cases fl with
  | ok seq fid feats => simp [isFailure] at h
  | failEarly => rfl
  | failAfterKey seq fid => rfl
  | failAfterRecord seq fid feats => rfl

theorem runLoop_cons (spf : Nat) (st : LoopState) (s : SampleOutcome)
    (rest : List SampleOutcome) :
    runLoop spf st (s :: rest)
      = if (procSample spf st s).2 then ((procSample spf st s).1, true)
        else runLoop spf (procSample spf st s).1 rest := rfl

theorem dictLookup_update_cases {β : Type} (d : List (String × β))
    (k₀ : String) (v₀ : β) (k : String) (v : β)
    (h : dictLookup (dictUpdate d k₀ v₀) k = some v) :
    (k = k₀ ∧ v = v₀) ∨ dictLookup d k = some v := by
  by_cases hk : k = k₀
  · subst hk
    rw [dictLookup_update_self] at h
    exact Or.inl ⟨rfl, (Option.some_injective _ h).symm⟩
  · right
    rwa [dictLookup_update_ne _ _ _ _ hk] at h

theorem fsLookup_write_cases (fs : FS) (n : String) (w : FSValue) (f : String)
    (u : FSValue) (h : fsLookup (fsWrite fs n w) f = some u) :
    (f = n ∧ u = w) ∨ fsLookup fs f = some u := by
  by_cases hf : f = n
  · subst hf
    rw [fsLookup_write_self] at h
    exact Or.inl ⟨rfl, (Option.some_injective _ h).symm⟩
  · right
    rwa [fsLookup_write_ne _ _ _ _ hf] at h

/-- Recording a different key (both dict updates) preserves `Stored`
when the index, filesystem and shard index are unchanged. -/
theorem stored_record_other (st : LoopState) (k₀ : String) (v₀ : FeatsT)
    (k : String) (v : FeatsT) (hst : Stored st k v) (hkne : k ≠ k₀) :
    Stored { st with
        key := k₀
        dict := dictUpdate st.dict k₀ v₀
        voc := dictUpdate st.voc k₀ (fileName st.idx) } k v := by
  rcases hst with ⟨h1, h2⟩ | ⟨j, hj, h1, sd, h2, h3⟩
  · refine Or.inl ⟨?_, ?_⟩
    · show dictLookup (dictUpdate st.voc k₀ (fileName st.idx)) k
        = some (fileName st.idx)
      rw [dictLookup_update_ne _ _ _ _ hkne]
      exact h1
    · show dictLookup (dictUpdate st.dict k₀ v₀) k = some v
      rw [dictLookup_update_ne _ _ _ _ hkne]
      exact h2
  · refine Or.inr ⟨j, hj, ?_, sd, h2, h3⟩
    show dictLookup (dictUpdate st.voc k₀ (fileName st.idx)) k
      = some (fileName j)
    rw [dictLookup_update_ne _ _ _ _ hkne]
    exact h1

/-- Processing a sample whose key differs from `k` preserves `Stored`. -/
theorem stored_procSample (spf : Nat) (st : LoopState) (s : SampleOutcome)
    (k : String) (v : FeatsT) (hst : Stored st k v)
    (hne : ∀ k', outKey s = some k' → k' ≠ k) :
    Stored (procSample spf st s).1 k v := by
  cases s with
  | failEarly => exact hst
  | failAfterKey seq fid =>
    rw [procSample_failAfterKey]
    exact hst
  | failAfterRecord seq fid feats =>
    rw [procSample_failAfterRecord]
    exact stored_record_other st _ _ k v hst (hne _ rfl).symm
  | ok seq fid feats =>
    have hkne : k ≠ mkKey seq fid := (hne _ rfl).symm
    by_cases hrot : (dictUpdate st.dict (mkKey seq fid) feats).length = spf
    · rw [procSample_ok_rotate spf st seq fid feats hrot]
      rcases hst with ⟨h1, h2⟩ | ⟨j, hj, h1, sd, h2, h3⟩
      · refine Or.inr ⟨st.idx, ?_, ?_, dictUpdate st.dict (mkKey seq fid) feats,
          ?_, ?_⟩
        · show st.idx < st.idx + 1
          omega
        · show dictLookup (dictUpdate st.voc (mkKey seq fid) (fileName st.idx)) k
            = some (fileName st.idx)
          rw [dictLookup_update_ne _ _ _ _ hkne]
          exact h1
        · exact fsLookup_write_self _ _ _
        · show dictLookup (dictUpdate st.dict (mkKey seq fid) feats) k = some v
          rw [dictLookup_update_ne _ _ _ _ hkne]
          exact h2
      · refine Or.inr ⟨j, ?_, ?_, sd, ?_, h3⟩
        · show j < st.idx + 1
          omega
        · show dictLookup (dictUpdate st.voc (mkKey seq fid) (fileName st.idx)) k
            = some (fileName j)
          rw [dictLookup_update_ne _ _ _ _ hkne]
          exact h1
        · show fsLookup (fsWrite st.fs (fileName st.idx)
              (FSValue.shard (dictUpdate st.dict (mkKey seq fid) feats)))
            (fileName j) = some (FSValue.shard sd)
          rw [fsLookup_write_ne]
          · exact h2
          · intro heq
            exact absurd (fileName_injective heq) (by omega)
    · rw [procSample_ok_no_rotate spf st seq fid feats hrot]
      exact stored_record_other st _ _ k v hst hkne

/-- A successfully processed sample leaves its own key `Stored`. -/
theorem stored_after_ok (spf : Nat) (st : LoopState) (seq : String)
    (fid : Nat) (feats : FeatsT) :
    Stored (procSample spf st (SampleOutcome.ok seq fid feats)).1
      (mkKey seq fid) feats := by
  by_cases hrot : (dictUpdate st.dict (mkKey seq fid) feats).length = spf
  · rw [procSample_ok_rotate spf st seq fid feats hrot]
    refine Or.inr ⟨st.idx, ?_, ?_,
      dictUpdate st.dict (mkKey seq fid) feats, ?_, ?_⟩
    · show st.idx < st.idx + 1
      omega
    · exact dictLookup_update_self _ _ _
    · exact fsLookup_write_self _ _ _
    · exact dictLookup_update_self _ _ _
  · rw [procSample_ok_no_rotate spf st seq fid feats hrot]
    exact Or.inl ⟨dictLookup_update_self _ _ _, dictLookup_update_self _ _ _⟩

/-- A sample failing after its record step leaves its key `Stored`. -/
theorem stored_after_failAfterRecord (spf : Nat) (st : LoopState)
    (seq : String) (fid : Nat) (feats : FeatsT) :
    Stored (procSample spf st (SampleOutcome.failAfterRecord seq fid feats)).1
      (mkKey seq fid) feats := by
  rw [procSample_failAfterRecord]
  exact Or.inl ⟨dictLookup_update_self _ _ _, dictLookup_update_self _ _ _⟩

/-- `Stored` is preserved by running the loop over samples whose keys all
differ from `k`. -/
theorem stored_runLoop (spf : Nat) (steps : List SampleOutcome) :
    ∀ (st : LoopState) (k : String) (v : FeatsT), Stored st k v →
      (∀ u ∈ steps, ∀ k', outKey u = some k' → k' ≠ k) →
      Stored (runLoop spf st steps).1 k v := by
  induction steps with
  | nil =>
    intro st k v hst _
    exact hst
  | cons u steps ih =>
    intro st k v hst hne
    have h1 : Stored (procSample spf st u).1 k v :=
      stored_procSample spf st u k v hst (hne u (List.mem_cons_self u steps))
    rw [runLoop_cons]
    by_cases hr : (procSample spf st u).2
    · rw [if_pos hr]
      exact h1
    · rw [if_neg hr]
      exact ih _ k v h1 (fun u' hu' => hne u' (List.mem_cons_of_mem u hu'))

/-- The `finally` block turns `Stored` into durable persistence. -/
theorem stored_finalize (st : LoopState) (k : String) (v : FeatsT)
    (hst : Stored st k v) : PersistedVoc (finalize st).fs k v := by
  have hfs : (finalize st).fs
      = fsWrite (fsWrite st.fs (fileName st.idx) (FSValue.shard st.dict))
          vocName (FSValue.voc st.voc) := rfl
  rcases hst with ⟨h1, h2⟩ | ⟨j, hj, h1, sd, h2, h3⟩
  · refine ⟨st.voc, fileName st.idx, st.dict, ?_, h1, ?_, h2⟩
    · rw [hfs]
      exact fsLookup_write_self _ _ _
    · rw [hfs, fsLookup_write_ne _ _ _ _ (fileName_ne_vocName st.idx)]
      exact fsLookup_write_self _ _ _
  · refine ⟨st.voc, fileName j, sd, ?_, h1, ?_, h3⟩
    · rw [hfs]
      exact fsLookup_write_self _ _ _
    · rw [hfs, fsLookup_write_ne _ _ _ _ (fileName_ne_vocName j)]
      rw [fsLookup_write_ne]
      · exact h2
      · intro heq
        exact absurd (fileName_injective heq) (by omega)

theorem outKey_okOutcome (s : OkStep) : outKey (okOutcome s) = some (okKey s) :=
  rfl

/-- After an all-ok prefix followed by a failing sample, every sample of
the prefix is still `Stored` in the loop's final state. -/
theorem stored_at_end (spf : Nat) (fl : SampleOutcome)
    (hfl : isFailure fl = true) :
    ∀ (pre : List OkStep) (st : LoopState),
      (pre.map okKey).Nodup →
      (∀ k', outKey fl = some k' → k' ∉ pre.map okKey) →
      ∀ s ∈ pre,
        Stored (runLoop spf st (pre.map okOutcome ++ [fl])).1
          (okKey s) s.2.2 := by
  intro pre
  induction pre with
  | nil =>
    intro st _ _ s hs
    simp at hs
  | cons p pre ih =>
    intro st hnodup hflkey s hs
    rw [List.map_cons, List.cons_append, runLoop_cons_ok]
    have hnodup' : (okKey p :: pre.map okKey).Nodup := by simpa using hnodup
    rcases List.mem_cons.1 hs with heq | hs'
    · subst heq
      apply stored_runLoop
      · exact stored_after_ok spf st s.1 s.2.1 s.2.2
      · intro u hu k' hk'
        rcases List.mem_append.1 hu with hu1 | hu2
        · obtain ⟨s', hs'', rfl⟩ := List.mem_map.1 hu1
          rw [outKey_okOutcome] at hk'
          have hk'' : okKey s' = k' := by injection hk'
          intro heq2
          have hnd := (List.nodup_cons.1 hnodup').1
          exact hnd (by
            rw [← heq2, ← hk'']
            exact List.mem_map_of_mem okKey hs'')
        · have hufl : u = fl := by simpa using hu2
          subst hufl
          intro heq2
          refine hflkey k' hk' ?_
          rw [List.map_cons, heq2]
          exact List.mem_cons_self _ _
    · refine ih _ (List.nodup_cons.1 hnodup').2 ?_ s hs'
      intro k' hk' hm
      refine hflkey k' hk' ?_
      rw [List.map_cons]
      exact List.mem_cons_of_mem _ hm

/-- The all-ok prefix of a failed run is durably persisted after the
`finally` block, whatever trailing samples were never reached. -/
theorem persisted_pre (spf : Nat) (pre : List OkStep) (fl : SampleOutcome)
    (rest : List SampleOutcome) (hfl : isFailure fl = true)
    (hnodup : (pre.map okKey).Nodup)
    (hflkey : ∀ k', outKey fl = some k' → k' ∉ pre.map okKey) :
    ∀ s ∈ pre,
      PersistedVoc (mainFS spf (pre.map okOutcome ++ fl :: rest))
        (okKey s) s.2.2 := by
  intro s hs
  have h1 := stored_at_end spf fl hfl pre initState hnodup hflkey s hs
  rw [mainFS, runLoop_stops spf pre fl hfl rest initState]
  exact stored_finalize _ _ _ h1

theorem keysBound_init (S : List String) : KeysBound initState S := by
  refine ⟨?_, ?_, ?_⟩
  · intro k v h
    simp [initState, dictLookup] at h
  · intro k f h
    simp [initState, dictLookup] at h
  · intro f sd h
    simp [initState, fsLookup] at h

/-- The keys recorded anywhere stay inside `S` across one loop body,
provided the sample's own key (when its record step runs) is in `S`. -/
theorem keysBound_procSample (spf : Nat) (st : LoopState) (s : SampleOutcome)
    (S : List String) (hB : KeysBound st S)
    (hkey : recordDone s = true → ∀ k', outKey s = some k' → k' ∈ S) :
    KeysBound (procSample spf st s).1 S := by
  obtain ⟨hd, hv, hf⟩ := hB
  cases s with
  | failEarly => exact ⟨hd, hv, hf⟩
  | failAfterKey seq fid =>
    rw [procSample_failAfterKey]
    exact ⟨hd, hv, hf⟩
  | failAfterRecord seq fid feats =>
    rw [procSample_failAfterRecord]
    refine ⟨?_, ?_, hf⟩
    · intro k v h
      rcases dictLookup_update_cases _ _ _ _ _ h with ⟨rfl, _⟩ | h'
      · exact hkey rfl _ rfl
      · exact hd _ _ h'
    · intro k f h
      rcases dictLookup_update_cases _ _ _ _ _ h with ⟨rfl, _⟩ | h'
      · exact hkey rfl _ rfl
      · exact hv _ _ h'
  | ok seq fid feats =>
    by_cases hrot : (dictUpdate st.dict (mkKey seq fid) feats).length = spf
    · rw [procSample_ok_rotate spf st seq fid feats hrot]
      refine ⟨?_, ?_, ?_⟩
      · intro k v h
        simp [dictLookup] at h
      · intro k f h
        rcases dictLookup_update_cases _ _ _ _ _ h with ⟨rfl, _⟩ | h'
        · exact hkey rfl _ rfl
        · exact hv _ _ h'
      · intro f sd h k v hk
        rcases fsLookup_write_cases _ _ _ _ _ h with ⟨_, heq⟩ | h'
        · have hsd : sd = dictUpdate st.dict (mkKey seq fid) feats := by
            injection heq
          rw [hsd] at hk
          rcases dictLookup_update_cases _ _ _ _ _ hk with ⟨rfl, _⟩ | hk'
          · exact hkey rfl _ rfl
          · exact hd _ _ hk'
        · exact hf _ _ h' k v hk
    · rw [procSample_ok_no_rotate spf st seq fid feats hrot]
      refine ⟨?_, ?_, hf⟩
      · intro k v h
        rcases dictLookup_update_cases _ _ _ _ _ h with ⟨rfl, _⟩ | h'
        · exact hkey rfl _ rfl
        · exact hd _ _ h'
      · intro k f h
        rcases dictLookup_update_cases _ _ _ _ _ h with ⟨rfl, _⟩ | h'
        · exact hkey rfl _ rfl
        · exact hv _ _ h'

theorem keysBound_runLoop (spf : Nat) (steps : List SampleOutcome) :
    ∀ (st : LoopState) (S : List String), KeysBound st S →
      (∀ u ∈ steps, recordDone u = true →
        ∀ k', outKey u = some k' → k' ∈ S) →
      KeysBound (runLoop spf st steps).1 S := by
  induction steps with
  | nil =>
    intro st S hB _
    exact hB
  | cons u steps ih =>
    intro st S hB hkeys
    have h1 : KeysBound (procSample spf st u).1 S :=
      keysBound_procSample spf st u S hB
        (hkeys u (List.mem_cons_self u steps))
    rw [runLoop_cons]
    by_cases hr : (procSample spf st u).2
    · rw [if_pos hr]
      exact h1
    · rw [if_neg hr]
      exact ih _ S h1 (fun u' hu' => hkeys u' (List.mem_cons_of_mem u hu'))

/-- A key outside the bound set is absent from every file `finalize`
leaves on disk. -/
theorem absent_finalize (st : LoopState) (S : List String) (k : String)
    (hB : KeysBound st S) (hk : k ∉ S) : Absent (finalize st).fs k := by
  obtain ⟨hd, hv, hf⟩ := hB
  have hfs : (finalize st).fs
      = fsWrite (fsWrite st.fs (fileName st.idx) (FSValue.shard st.dict))
          vocName (FSValue.voc st.voc) := rfl
  constructor
  · intro V hV
    rw [hfs, fsLookup_write_self] at hV
    have hVv : st.voc = V := by
      injection hV with hV'
      injection hV'
    subst hVv
    cases hlook : dictLookup st.voc k with
    | none => rfl
    | some f => exact absurd (hv _ _ hlook) hk
  · intro f sd hsd
    rw [hfs] at hsd
    rcases fsLookup_write_cases _ _ _ _ _ hsd with ⟨_, heq⟩ | hsd'
    · injection heq
    · rcases fsLookup_write_cases _ _ _ _ _ hsd' with ⟨_, heq⟩ | hsd''
      · have hsdd : sd = st.dict := by injection heq
        subst hsdd
        cases hlook : dictLookup st.dict k with
        | none => rfl
        | some v => exact absurd (hd _ _ hlook) hk
      · cases hlook : dictLookup sd k with
        | none => rfl
        | some v => exact absurd (hf _ _ hsd'' _ _ hlook) hk

theorem runLoop_nil (spf : Nat) (st : LoopState) :
    runLoop spf st [] = (st, false) := rfl

theorem dictLookup_singleton_ne {β : Type} (k₀ : String) (v₀ : β)
    (k : String) (h : ¬ k₀ = k) : dictLookup [(k₀, v₀)] k = none := by
  simp [dictLookup, h]

/-- Exact effect of a batch of successful fresh-key samples that fills
the buffer up to `samples_per_file`: the buffer is flushed to the shard
file of the current index, the index advances, the buffer empties, and
the vocabulary gains one entry per key, all pointing at the flushed
shard. -/
theorem runLoop_rotation_eq (spf : Nat) :
    ∀ (pre : List OkStep) (st : LoopState), pre ≠ [] →
      st.dict.length + pre.length = spf →
      (pre.map okKey).Nodup →
      (∀ s ∈ pre, dictLookup st.dict (okKey s) = none) →
      (∀ s ∈ pre, dictLookup st.voc (okKey s) = none) →
      runLoop spf st (pre.map okOutcome)
        = ({ idx := st.idx + 1
             dict := []
             voc := st.voc ++ pre.map (fun s => (okKey s, fileName st.idx))
             fs := fsWrite st.fs (fileName st.idx)
               (FSValue.shard (st.dict ++ pre.map okPair))
             key := (pre.map okKey).getLastD st.key }, false) := by
  intro pre
  induction pre with
  | nil =>
    intro st hne
    exact absurd rfl hne
  | cons p pre ih =>
    intro st hne hlen hnodup hdict hvoc
    have hkp : dictLookup st.dict (okKey p) = none :=
      hdict p (List.mem_cons_self p pre)
    have hupdate : dictUpdate st.dict (mkKey p.1 p.2.1) p.2.2
        = st.dict ++ [(mkKey p.1 p.2.1, p.2.2)] :=
      dictUpdate_not_mem _ _ _ hkp
    have hvupdate : dictUpdate st.voc (mkKey p.1 p.2.1) (fileName st.idx)
        = st.voc ++ [(mkKey p.1 p.2.1, fileName st.idx)] :=
      dictUpdate_not_mem _ _ _ (hvoc p (List.mem_cons_self p pre))
    have hnodup' : (okKey p :: pre.map okKey).Nodup := by simpa using hnodup
    cases pre with
    | nil =>
      have hlen1 : (dictUpdate st.dict (mkKey p.1 p.2.1) p.2.2).length = spf := by
        rw [hupdate, List.length_append]
        simp only [List.length_cons, List.length_nil] at hlen ⊢
        omega
      show runLoop spf st (okOutcome p :: []) = _
      rw [runLoop_cons_ok,
        show okOutcome p = SampleOutcome.ok p.1 p.2.1 p.2.2 from rfl,
        procSample_ok_rotate spf st p.1 p.2.1 p.2.2 hlen1, runLoop_nil,
        hupdate, hvupdate]
      rfl
    | cons q pre2 =>
      have hlen1 : ¬ (dictUpdate st.dict (mkKey p.1 p.2.1) p.2.2).length = spf := by
        rw [hupdate, List.length_append]
        simp only [List.length_cons, List.length_nil] at hlen ⊢
        omega
      show runLoop spf st (okOutcome p :: (q :: pre2).map okOutcome) = _
      rw [runLoop_cons_ok,
        show okOutcome p = SampleOutcome.ok p.1 p.2.1 p.2.2 from rfl,
        procSample_ok_no_rotate spf st p.1 p.2.1 p.2.2 hlen1]
      rw [ih { st with
          key := mkKey p.1 p.2.1
          dict := dictUpdate st.dict (mkKey p.1 p.2.1) p.2.2
          voc := dictUpdate st.voc (mkKey p.1 p.2.1) (fileName st.idx) }
        (List.cons_ne_nil q pre2)
        (by
          show (dictUpdate st.dict (mkKey p.1 p.2.1) p.2.2).length
            + (q :: pre2).length = spf
          rw [hupdate, List.length_append]
          simp only [List.length_cons, List.length_nil] at hlen ⊢
          omega)
        (List.nodup_cons.1 hnodup').2
        (by
          intro s hs
          show dictLookup (dictUpdate st.dict (mkKey p.1 p.2.1) p.2.2)
            (okKey s) = none
          rw [hupdate,
            dictLookup_append_right _ _ _ (hdict s (List.mem_cons_of_mem p hs))]
          refine dictLookup_singleton_ne _ _ _ ?_
          intro heq
          refine (List.nodup_cons.1 hnodup').1 ?_
          show okKey p ∈ (q :: pre2).map okKey
          rw [show okKey p = mkKey p.1 p.2.1 from rfl, heq]
          exact List.mem_map_of_mem okKey hs)
        (by
          intro s hs
          show dictLookup (dictUpdate st.voc (mkKey p.1 p.2.1) (fileName st.idx))
            (okKey s) = none
          rw [hvupdate,
            dictLookup_append_right _ _ _ (hvoc s (List.mem_cons_of_mem p hs))]
          refine dictLookup_singleton_ne _ _ _ ?_
          intro heq
          refine (List.nodup_cons.1 hnodup').1 ?_
          show okKey p ∈ (q :: pre2).map okKey
          rw [show okKey p = mkKey p.1 p.2.1 from rfl, heq]
          exact List.mem_map_of_mem okKey hs)]
      show ({ idx := st.idx + 1
              dict := []
              voc := dictUpdate st.voc (mkKey p.1 p.2.1) (fileName st.idx)
                ++ (q :: pre2).map (fun s => (okKey s, fileName st.idx))
              fs := fsWrite st.fs (fileName st.idx)
                (FSValue.shard (dictUpdate st.dict (mkKey p.1 p.2.1) p.2.2
                  ++ (q :: pre2).map okPair))
              key := ((q :: pre2).map okKey).getLastD (mkKey p.1 p.2.1) }
            , false)
        = ((_ : LoopState), false)
      rw [hupdate, hvupdate, List.append_assoc, List.append_assoc]
      rfl

/-! ### Patch-extractor lemmas -/

theorem real_w_of_nonneg (d : Detection) (h : 0 ≤ d.x) : real_w d = d.w := by
  simp only [real_w]
  split_ifs <;> omega

theorem real_w_of_neg (d : Detection) (h : d.x < 0) : real_w d = d.x + d.w := by
  simp only [real_w]
  split_ifs <;> omega

theorem real_h_of_nonneg (d : Detection) (h : 0 ≤ d.y) : real_h d = d.h := by
  simp only [real_h]
  split_ifs <;> omega

theorem real_h_of_neg (d : Detection) (h : d.y < 0) : real_h d = d.y + d.h := by
  simp only [real_h]
  split_ifs <;> omega

theorem real_xmin_nonneg (d : Detection) : 0 ≤ real_xmin d := le_max_left 0 d.x

theorem real_ymin_nonneg (d : Detection) : 0 ≤ real_ymin d := le_max_left 0 d.y

theorem crop_of_pos (fr : Frame) (d : Detection) (hh : 1 < real_h d)
    (hw : 1 < real_w d) :
    crop fr d = slicePatch fr (real_ymin d).toNat (real_xmin d).toNat
      (real_h d).toNat (real_w d).toNat := by
  unfold crop
  rw [if_neg]
  rintro (h | h) <;> omega

theorem slicePatch_eq (fr : Frame) (y x h w : Nat) :
    slicePatch fr y x h w
      = ⟨DType.float32, subArray fr y x (min h (fr.H - y)) (min w (fr.W - x))⟩ :=
  rfl

theorem subArray_length (fr : Frame) (y x h w : Nat) :
    (subArray fr y x h w).length = h := by
  simp [subArray]

theorem subArray_row_length (fr : Frame) (y x h w : Nat) :
    ∀ r ∈ subArray fr y x h w, r.length = w := by
  intro r hr
  simp only [subArray, List.mem_map] at hr
  obtain ⟨i, _, rfl⟩ := hr
  simp

theorem finalize_voc_lookup (st : LoopState) :
    fsLookup (finalize st).fs vocName = some (FSValue.voc st.voc) :=
  fsLookup_write_self _ _ _

theorem finalize_shard_lookup (st : LoopState) :
    fsLookup (finalize st).fs (fileName st.idx)
      = some (FSValue.shard st.dict) := by
  have hfs : (finalize st).fs
      = fsWrite (fsWrite st.fs (fileName st.idx) (FSValue.shard st.dict))
          vocName (FSValue.voc st.voc) := rfl
  rw [hfs, fsLookup_write_ne _ _ _ _ (fileName_ne_vocName st.idx)]
  exact fsLookup_write_self _ _ _

theorem dictLookup_map_const (c : String) :
    ∀ (pre : List OkStep) (s : OkStep), s ∈ pre →
      dictLookup (pre.map (fun u => (okKey u, c))) (okKey s) = some c := by
  intro pre
  induction pre with
  | nil =>
    intro s hs
    simp at hs
  | cons p pre ih =>
    intro s hs
    rw [List.map_cons]
    rcases List.mem_cons.1 hs with heq | hs'
    · subst heq
      simp [dictLookup]
    · by_cases h : okKey p = okKey s
      · simp [dictLookup, h]
      · simp only [dictLookup, h, if_false]
        exact ih s hs'

/-! ### The claims -/

/-- **C5** — Patch crop correctness: for every detection box, the origin
is clamped to be nonnegative; a negative top-left coordinate makes the
effective extent equal the declared extent plus the negative origin,
otherwise the declared extent is used directly; and a box fully inside
the frame with width and height greater than one yields exactly the pixel
sub-array `frame[y : y + h, x : x + w]` with shape `(height, width, 3)`. -/
theorem patch_crop_correct (fr : Frame) (d : Detection) :
    (0 ≤ real_xmin d ∧ 0 ≤ real_ymin d)
    ∧ (d.x < 0 → real_w d = d.x + d.w)
    ∧ (0 ≤ d.x → real_w d = d.w)
    ∧ (d.y < 0 → real_h d = d.y + d.h)
    ∧ (0 ≤ d.y → real_h d = d.h)
    ∧ (InBounds fr d →
        crop fr d
          = ⟨DType.float32, subArray fr d.y.toNat d.x.toNat d.h.toNat d.w.toNat⟩
        ∧ (crop fr d).data.length = d.h.toNat
        ∧ ∀ r ∈ (crop fr d).data, r.length = d.w.toNat) := by
  refine ⟨⟨real_xmin_nonneg d, real_ymin_nonneg d⟩, real_w_of_neg d,
    real_w_of_nonneg d, real_h_of_neg d, real_h_of_nonneg d, ?_⟩
  rintro ⟨hx, hy, hw, hh, hxw, hyh⟩
  have hrw : real_w d = d.w := real_w_of_nonneg d hx
  have hrh : real_h d = d.h := real_h_of_nonneg d hy
  have hxm : real_xmin d = d.x := max_eq_right hx
  have hym : real_ymin d = d.y := max_eq_right hy
  have heq : crop fr d
      = ⟨DType.float32, subArray fr d.y.toNat d.x.toNat d.h.toNat d.w.toNat⟩ := by
    rw [crop_of_pos fr d (by omega) (by omega), hrw, hrh, hxm, hym,
      slicePatch_eq, min_eq_left (by omega), min_eq_left (by omega)]
  refine ⟨heq, ?_, ?_⟩
  · rw [heq]
    exact subArray_length fr d.y.toNat d.x.toNat d.h.toNat d.w.toNat
  · rw [heq]
    exact subArray_row_length fr d.y.toNat d.x.toNat d.h.toNat d.w.toNat

/-- Witness for `patch_crop_correct` at the concrete frame `fr0` and
box `d0`. -/
theorem patch_crop_correct_witness :
    InBounds fr0 d0
    ∧ crop fr0 d0
      = ⟨DType.float32, subArray fr0 d0.y.toNat d0.x.toNat d0.h.toNat d0.w.toNat⟩ :=
  ⟨by decide, ((patch_crop_correct fr0 d0).2.2.2.2.2 (by decide)).1⟩

/-- **C6** — Degenerate-box policy: whenever the computed height or width
is at most one, the crop returns the all-zero `256 × 128 × 3` placeholder
in the `uint8` domain; no error is raised, degenerate boxes are silently
replaced by zero patches (`crop` is a total function). -/
theorem degenerate_box_zero_patch (fr : Frame) (d : Detection)
    (hdeg : real_h d ≤ 1 ∨ real_w d ≤ 1) :
    crop fr d = zeroPatch
    ∧ zeroPatch.dtype = DType.uint8
    ∧ zeroPatch.data.length = 256
    ∧ (∀ r ∈ zeroPatch.data, r.length = 128)
    ∧ (∀ r ∈ zeroPatch.data, ∀ p ∈ r, p = ((0 : ℚ), (0 : ℚ), (0 : ℚ))) := by
  have hlen : zeroPatch.data.length = 256 := by
    show (List.replicate 256 (List.replicate 128 ((0 : ℚ), (0 : ℚ), (0 : ℚ)))).length = 256
    exact List.length_replicate 256 _
  refine ⟨by simp [crop, hdeg], rfl, hlen, ?_, ?_⟩
  · intro r hr
    have hr' : r = List.replicate 128 ((0 : ℚ), (0 : ℚ), (0 : ℚ)) :=
      List.eq_of_mem_replicate hr
    rw [hr']
    exact List.length_replicate 128 _
  · intro r hr p hp
    have hr' : r = List.replicate 128 ((0 : ℚ), (0 : ℚ), (0 : ℚ)) :=
      List.eq_of_mem_replicate hr
    rw [hr'] at hp
    exact List.eq_of_mem_replicate hp

/-- Witness for `degenerate_box_zero_patch` at the degenerate box `d1`. -/
theorem degenerate_box_zero_patch_witness :
    (real_h d1 ≤ 1 ∨ real_w d1 ≤ 1) ∧ crop fr0 d1 = zeroPatch :=
  ⟨by decide, (degenerate_box_zero_patch fr0 d1 (by decide)).1⟩

/-- **C10** — No frame-bounds clamping: when the clamped origin is inside
the frame but the computed extent reaches beyond the right or bottom
edge, the patch is silently truncated by slicing to shape
`(min real_h (H - y), min real_w (W - x), 3)`; its content is the
truncated pixel sub-array (no zero-filling or padding), and the
overflowing dimension is strictly smaller than the computed extent. -/
theorem out_of_bounds_truncated (fr : Frame) (d : Detection)
    (hh : 1 < real_h d) (hw : 1 < real_w d)
    (hyin : (real_ymin d).toNat < fr.H) (hxin : (real_xmin d).toNat < fr.W)
    (hbeyond : fr.H < (real_ymin d).toNat + (real_h d).toNat
      ∨ fr.W < (real_xmin d).toNat + (real_w d).toNat) :
    crop fr d = ⟨DType.float32,
      subArray fr (real_ymin d).toNat (real_xmin d).toNat
        (min (real_h d).toNat (fr.H - (real_ymin d).toNat))
        (min (real_w d).toNat (fr.W - (real_xmin d).toNat))⟩
    ∧ (crop fr d).data.length
        = min (real_h d).toNat (fr.H - (real_ymin d).toNat)
    ∧ (∀ r ∈ (crop fr d).data,
        r.length = min (real_w d).toNat (fr.W - (real_xmin d).toNat))
    ∧ (fr.H < (real_ymin d).toNat + (real_h d).toNat →
        (crop fr d).data.length < (real_h d).toNat)
    ∧ (fr.W < (real_xmin d).toNat + (real_w d).toNat →
        ∀ r ∈ (crop fr d).data, r.length < (real_w d).toNat) := by
  have heq : crop fr d = ⟨DType.float32,
      subArray fr (real_ymin d).toNat (real_xmin d).toNat
        (min (real_h d).toNat (fr.H - (real_ymin d).toNat))
        (min (real_w d).toNat (fr.W - (real_xmin d).toNat))⟩ := by
    rw [crop_of_pos fr d hh hw, slicePatch_eq]
  have hlen : (crop fr d).data.length
      = min (real_h d).toNat (fr.H - (real_ymin d).toNat) := by
    rw [heq]
    exact subArray_length _ _ _ _ _
  have hrow : ∀ r ∈ (crop fr d).data,
      r.length = min (real_w d).toNat (fr.W - (real_xmin d).toNat) := by
    rw [heq]
    exact subArray_row_length _ _ _ _ _
  refine ⟨heq, hlen, hrow, ?_, ?_⟩
  · intro hb
    rw [hlen, min_eq_right (by omega)]
    omega
  · intro hb r hr
    rw [hrow r hr, min_eq_right (by omega)]
    omega

/-- Witness for `out_of_bounds_truncated` at the overflowing box `d2`. -/
theorem out_of_bounds_truncated_witness :
    (1 < real_h d2 ∧ 1 < real_w d2 ∧ (real_ymin d2).toNat < fr0.H
      ∧ (real_xmin d2).toNat < fr0.W
      ∧ (fr0.H < (real_ymin d2).toNat + (real_h d2).toNat
        ∨ fr0.W < (real_xmin d2).toNat + (real_w d2).toNat))
    ∧ (crop fr0 d2).data.length
        = min (real_h d2).toNat (fr0.H - (real_ymin d2).toNat) :=
  ⟨by decide,
    (out_of_bounds_truncated fr0 d2 (by decide) (by decide) (by decide)
      (by decide) (by decide)).2.1⟩

/-- **C7** — Empty-input short circuit: both feature-extractor variants
return the empty tensor on an empty patch list, with zero invocations of
the underlying model. -/
theorem empty_input_short_circuit :
    ∀ (α : Type) (T preprocess : Patch → α) (model : List α → List FVec),
      resnet18Call T model [] = ⟨FeatResult.emptyTensor, 0, none⟩
      ∧ reidCall preprocess model [] = ⟨FeatResult.emptyTensor, 0, none⟩ := by
  intro α T preprocess model
  exact ⟨rfl, rfl⟩

/-- **C8** — Feature-extractor output contract: on a non-empty list of
`n` patches, both variants run the underlying model exactly once on the
whole order-preserving preprocessed batch with gradient tracking
disabled, and (given the backbone's `BS x 512` contract) return exactly
`n` feature vectors of dimension 512, aligned by index with the input. -/
theorem feature_extractor_output_contract (α : Type) (T P : Patch → α)
    (model : List α → List FVec)
    (hlen : ∀ b, (model b).length = b.length)
    (hdim : ∀ b, ∀ v ∈ model b, v.length = 512)
    (x : List Patch) (hx : x ≠ []) :
    resnet18Call T model x
        = ⟨FeatResult.batchOut (model (x.map T)), 1, some false⟩
    ∧ (model (x.map T)).length = x.length
    ∧ (∀ v ∈ model (x.map T), v.length = 512)
    ∧ reidCall P model x
        = ⟨FeatResult.batchOut (model (x.map P)), 1, some false⟩
    ∧ (model (x.map P)).length = x.length
    ∧ (∀ v ∈ model (x.map P), v.length = 512) := by
  have hne : ¬ x.length = 0 := by
    simpa [List.length_eq_zero] using hx
  refine ⟨by simp [resnet18Call, hne], ?_, hdim _, by simp [reidCall, hne],
    ?_, hdim _⟩
  · rw [hlen]
    simp
  · rw [hlen]
    simp

/-- Witness for `feature_extractor_output_contract` with a one-patch
input and a constant stand-in model. -/
theorem feature_extractor_output_contract_witness :
    ([zeroPatch] : List Patch) ≠ []
    ∧ ((fun b : List Unit => b.map fun _ => List.replicate 512 (0 : ℚ))
        (([zeroPatch] : List Patch).map fun _ => ())).length
      = ([zeroPatch] : List Patch).length :=
  ⟨List.cons_ne_nil _ _,
    (feature_extractor_output_contract Unit (fun _ => ()) (fun _ => ())
      (fun b : List Unit => b.map fun _ => List.replicate 512 (0 : ℚ))
      (fun b => by simp only [List.length_map])
      (fun b v hv => by
        obtain ⟨_, _, rfl⟩ := List.mem_map.1 hv
        exact List.length_replicate 512 _)
      [zeroPatch] (List.cons_ne_nil _ _)).2.1⟩

/-- **C9** — Configuration error fatality: any dataset type other than
`"mot-challenge"` or `"detrac"` makes `main` raise
`Exception("Invalid dataset type")` immediately; the error is independent
of the sample trace (nothing is processed) and, since `main` aborts with
an error instead of returning a result, no output file is written. -/
theorem invalid_dset_type_fatal (t : String) (spf : Nat)
    (steps : List SampleOutcome)
    (h1 : t ≠ "mot-challenge") (h2 : t ≠ "detrac") :
    mainRun t spf steps = Except.error "Invalid dataset type"
    ∧ mainRun t spf steps = mainRun t spf [] := by
  constructor <;> simp [mainRun, h1, h2]

/-- Witness for `invalid_dset_type_fatal` at the dataset type `"coco"`. -/
theorem invalid_dset_type_fatal_witness :
    ("coco" ≠ "mot-challenge" ∧ "coco" ≠ "detrac")
    ∧ mainRun "coco" 7 [] = Except.error "Invalid dataset type" :=
  ⟨⟨by decide, by decide⟩,
    (invalid_dset_type_fatal "coco" 7 [] (by decide) (by decide)).1⟩

/-- **C1** — Shard rotation: after exactly `samples_per_file` successful
`record`s of fresh keys (so that the buffer's key count reaches the
configured `samples_per_file`), the buffer is persisted to
`ap_vec_{current_shard_index}.apv`, the shard index is incremented, the
buffer is reset to empty, and the vocabulary maps each flushed key to the
now-closed shard's basename. -/
theorem shard_rotation (spf : Nat) (pre : List OkStep) (st : LoopState)
    (hne : pre ≠ []) (hlen : st.dict.length + pre.length = spf)
    (hnodup : (pre.map okKey).Nodup)
    (hdict : ∀ s ∈ pre, dictLookup st.dict (okKey s) = none)
    (hvoc : ∀ s ∈ pre, dictLookup st.voc (okKey s) = none) :
    (runLoop spf st (pre.map okOutcome)).1.idx = st.idx + 1
    ∧ (runLoop spf st (pre.map okOutcome)).1.dict = []
    ∧ fsLookup (runLoop spf st (pre.map okOutcome)).1.fs (fileName st.idx)
        = some (FSValue.shard (st.dict ++ pre.map okPair))
    ∧ ∀ s ∈ pre,
        dictLookup (runLoop spf st (pre.map okOutcome)).1.voc (okKey s)
          = some (fileName st.idx) := by
  rw [runLoop_rotation_eq spf pre st hne hlen hnodup hdict hvoc]
  refine ⟨rfl, rfl, fsLookup_write_self _ _ _, ?_⟩
  intro s hs
  show dictLookup
    (st.voc ++ pre.map (fun u => (okKey u, fileName st.idx))) (okKey s)
    = some (fileName st.idx)
  rw [dictLookup_append_right _ _ _ (hvoc s hs)]
  exact dictLookup_map_const (fileName st.idx) pre s hs

/-- Witness for `shard_rotation`: two fresh samples with
`samples_per_file = 2` from the initial state. -/
theorem shard_rotation_witness :
    (([okA, okB] : List OkStep) ≠ []
      ∧ initState.dict.length + ([okA, okB] : List OkStep).length = 2
      ∧ (([okA, okB] : List OkStep).map okKey).Nodup)
    ∧ (runLoop 2 initState (([okA, okB] : List OkStep).map okOutcome)).1.idx
        = initState.idx + 1 :=
  ⟨⟨List.cons_ne_nil _ _, rfl, by decide⟩,
    (shard_rotation 2 [okA, okB] initState (List.cons_ne_nil _ _) rfl
      (by decide) (fun s _ => rfl) (fun s _ => rfl)).1⟩

/-- **C2** — Finalize: for every valid configuration and every sample
trace — the loop ending normally or by a caught exception — `main` ends
by persisting whatever remains in the buffer (even empty or partial) to
the current shard filename and then serialising the full vocabulary to
the fixed-named `ap_vectors.voc` in the same output directory. -/
theorem finalize_always (t : String)
    (ht : t = "mot-challenge" ∨ t = "detrac")
    (spf : Nat) (steps : List SampleOutcome) :
    mainRun t spf steps
      = Except.ok ⟨mainFS spf steps, mainPrinted spf steps⟩
    ∧ fsLookup (mainFS spf steps) vocName
        = some (FSValue.voc (runLoop spf initState steps).1.voc)
    ∧ fsLookup (mainFS spf steps)
          (fileName (runLoop spf initState steps).1.idx)
        = some (FSValue.shard (runLoop spf initState steps).1.dict) := by
  refine ⟨by rw [mainRun, if_pos ht], ?_, ?_⟩
  · rw [mainFS]
    exact finalize_voc_lookup _
  · rw [mainFS]
    exact finalize_shard_lookup _

/-- Witness for `finalize_always`: a run whose only sample raises before
its key is built still writes the (empty) shard and vocabulary files. -/
theorem finalize_always_witness :
    ("detrac" = "mot-challenge" ∨ "detrac" = "detrac")
    ∧ fsLookup (mainFS 3 [SampleOutcome.failEarly]) vocName
        = some (FSValue.voc
            (runLoop 3 initState [SampleOutcome.failEarly]).1.voc) :=
  ⟨Or.inr rfl,
    (finalize_always "detrac" (Or.inr rfl) 3 [SampleOutcome.failEarly]).2.1⟩

/-- **C3** — Failure atomicity: if processing raises on frame `k` after
an all-ok prefix, `main` still returns normally, the persisted shards and
vocabulary reflect every frame before `k` (each key maps through the
vocabulary to a shard holding its features), and — when frame `k`'s
record step had not completed before the failure point — no entry for
frame `k`'s key exists in any shard or in the vocabulary. -/
theorem failure_atomicity (t : String)
    (ht : t = "mot-challenge" ∨ t = "detrac")
    (spf : Nat) (pre : List OkStep) (fl : SampleOutcome)
    (rest : List SampleOutcome)
    (hfl : isFailure fl = true) (hrec : recordDone fl = false)
    (hnodup : (pre.map okKey).Nodup)
    (hflkey : ∀ k', outKey fl = some k' → k' ∉ pre.map okKey) :
    mainRun t spf (pre.map okOutcome ++ fl :: rest)
      = Except.ok ⟨mainFS spf (pre.map okOutcome ++ fl :: rest),
          mainPrinted spf (pre.map okOutcome ++ fl :: rest)⟩
    ∧ (∀ s ∈ pre,
        PersistedVoc (mainFS spf (pre.map okOutcome ++ fl :: rest))
          (okKey s) s.2.2)
    ∧ (∀ k', outKey fl = some k' →
        Absent (mainFS spf (pre.map okOutcome ++ fl :: rest)) k') := by
  refine ⟨by rw [mainRun, if_pos ht],
    persisted_pre spf pre fl rest hfl hnodup hflkey, ?_⟩
  intro k' hk'
  rw [mainFS, runLoop_stops spf pre fl hfl rest initState]
  refine absent_finalize _ (pre.map okKey) k' ?_ (hflkey k' hk')
  apply keysBound_runLoop
  · exact keysBound_init _
  · intro u hu hrd k'' hk''
    rcases List.mem_append.1 hu with hu1 | hu2
    · obtain ⟨s', hs', rfl⟩ := List.mem_map.1 hu1
      rw [outKey_okOutcome] at hk''
      have hkk : okKey s' = k'' := by injection hk''
      rw [← hkk]
      exact List.mem_map_of_mem okKey hs'
    · have hufl : u = fl := by simpa using hu2
      subst hufl
      rw [hrec] at hrd
      exact absurd hrd (by simp)

/-- Witness for `failure_atomicity`: one successful frame, then a frame
failing between key construction and record. -/
theorem failure_atomicity_witness :
    (isFailure (SampleOutcome.failAfterKey "b" 2) = true
      ∧ recordDone (SampleOutcome.failAfterKey "b" 2) = false
      ∧ (([okA] : List OkStep).map okKey).Nodup)
    ∧ PersistedVoc
        (mainFS 2 (([okA] : List OkStep).map okOutcome
          ++ SampleOutcome.failAfterKey "b" 2 :: []))
        (okKey okA) okA.2.2 :=
  ⟨⟨rfl, rfl, by decide⟩,
    (failure_atomicity "mot-challenge" (Or.inl rfl) 2 [okA]
      (SampleOutcome.failAfterKey "b" 2) [] rfl rfl (by decide)
      (by
        intro k' hk'
        have hkk : mkKey "b" 2 = k' := by injection hk'
        rw [← hkk]
        decide)).2.1 okA (List.mem_cons_self okA [])⟩

/-- **C4** counterexample — the claim says the caught-exception
diagnostic names the *last successful* key; on a run whose only sample
fails after its key was constructed, the diagnostic names the failing
frame's key `"seq1_1"`, while no frame succeeded (the last successful
key would be the initial `""`). -/
theorem diagnostic_counterexample :
    mainPrinted 2 [SampleOutcome.failAfterKey "seq1" 1]
      = some (mkKey "seq1" 1)
    ∧ mkKey "seq1" 1 ≠ lastOkKey []
    ∧ lastOkKey [] = "" :=
  ⟨rfl, by decide, rfl⟩

/-- **C4** (amended) — On any exception in the per-sample loop, the
exception is caught (main returns normally), the printed diagnostic
names the most recently assigned key — the failing frame's key when the
failure occurred after key construction, otherwise the key of the last
successful frame (initially `""`) — the loop terminates early (the run
is unchanged by any samples after the failing one), control proceeds to
`finalize()` (the vocabulary file is written), and the progress of every
frame before the failing one is preserved on disk. -/
theorem exception_caught_and_finalized (t : String)
    (ht : t = "mot-challenge" ∨ t = "detrac") (spf : Nat)
    (pre : List OkStep) (fl : SampleOutcome) (rest : List SampleOutcome)
    (hfl : isFailure fl = true)
    (hnodup : (pre.map okKey).Nodup)
    (hflkey : ∀ k', outKey fl = some k' → k' ∉ pre.map okKey) :
    mainRun t spf (pre.map okOutcome ++ fl :: rest)
      = Except.ok ⟨mainFS spf (pre.map okOutcome ++ fl :: rest),
          mainPrinted spf (pre.map okOutcome ++ fl :: rest)⟩
    ∧ mainPrinted spf (pre.map okOutcome ++ fl :: rest)
        = some (match outKey fl with
            | some k' => k'
            | none => lastOkKey pre)
    ∧ mainRun t spf (pre.map okOutcome ++ fl :: rest)
        = mainRun t spf (pre.map okOutcome ++ [fl])
    ∧ (∃ V, fsLookup (mainFS spf (pre.map okOutcome ++ fl :: rest)) vocName
        = some (FSValue.voc V))
    ∧ (∀ s ∈ pre,
        PersistedVoc (mainFS spf (pre.map okOutcome ++ fl :: rest))
          (okKey s) s.2.2) := by
  refine ⟨by rw [mainRun, if_pos ht], ?_, ?_, ?_,
    persisted_pre spf pre fl rest hfl hnodup hflkey⟩
  · rw [mainPrinted, runLoop_fail_end spf pre fl hfl rest initState]
    show some ((procSample spf (stAfter spf pre initState) fl).1).key = _
    rw [procSample_fail_key spf _ fl hfl, stAfter_key]
    cases hok : outKey fl with
    | none => rfl
    | some k' => rfl
  · have h1 : mainFS spf (pre.map okOutcome ++ fl :: rest)
        = mainFS spf (pre.map okOutcome ++ [fl]) := by
      rw [mainFS, mainFS, runLoop_stops spf pre fl hfl rest initState]
    have h2 : mainPrinted spf (pre.map okOutcome ++ fl :: rest)
        = mainPrinted spf (pre.map okOutcome ++ [fl]) := by
      rw [mainPrinted, mainPrinted, runLoop_stops spf pre fl hfl rest initState]
    rw [mainRun, mainRun, h1, h2]
  · refine ⟨(runLoop spf initState (pre.map okOutcome ++ fl :: rest)).1.voc, ?_⟩
    rw [mainFS]
    exact finalize_voc_lookup _

/-- Witness for `exception_caught_and_finalized`: two successful frames,
a failure during the rotation save of frame `"c"`, and one unreachable
trailing sample. -/
theorem exception_caught_and_finalized_witness :
    (isFailure (SampleOutcome.failAfterRecord "c" 3 [[3]]) = true
      ∧ (([okA, okB] : List OkStep).map okKey).Nodup)
    ∧ mainPrinted 5 (([okA, okB] : List OkStep).map okOutcome
          ++ SampleOutcome.failAfterRecord "c" 3 [[3]]
            :: [SampleOutcome.failEarly])
        = some (match outKey (SampleOutcome.failAfterRecord "c" 3 [[3]]) with
            | some k' => k'
            | none => lastOkKey [okA, okB]) :=
  ⟨⟨rfl, by decide⟩,
    (exception_caught_and_finalized "mot-challenge" (Or.inl rfl) 5
      [okA, okB] (SampleOutcome.failAfterRecord "c" 3 [[3]])
      [SampleOutcome.failEarly] rfl (by decide)
      (by
        intro k' hk'
        have hkk : mkKey "c" 3 = k' := by injection hk'
        rw [← hkk]
        decide)).2.1⟩

end TADN
